import Mathlib

/-!
Verification of the nxtLvl workflow engine specification against the
repository's code.  The persistent data model and the PL/pgSQL functions
(`log_workflow_event`, `track_stage_changes`, `update_workflow_stats`,
the `recent_workflow_activity` view) are embedded from
`backend/workflow_schema.sql`; the generic item-update path is embedded
from the frontend (`pipeline/page.tsx` `onChangeStage` → PATCH) together
with the `update_updated_at_column` BEFORE UPDATE trigger from
`backend/supabase_schema.sql`.  The backend service layer
(`app/services/workflow_engine.py`, claim/transition primitives) is not
part of the shared sources; those operations are modelled from the spec
and are marked `Modelled from the spec:` in their doc comments.

Timestamps and dates are modelled as natural numbers, SQL DECIMAL as
`Rat`, nullable columns as `Option`.  PostgreSQL `UPDATE ... SET`
expressions read the pre-update row, and arithmetic on SQL NULL yields
NULL; both are reflected faithfully below.
-/

namespace Workflow

/-- The five pipeline stages in their fixed order, as listed by the
frontend `STAGES` constant and by the `CASE stage ... END` ordering in the
`workflow_overview` view of `backend/workflow_schema.sql`. -/
inductive Stage where
  | New
  | Classification
  | DataExtraction
  | Processing
  | Done
deriving DecidableEq, Repr

/-- Position of a stage in the fixed forward order (the numbers used by
the `workflow_overview` view: New=1, Classification=2, Data Extraction=3,
Processing=4, Done=5). -/
def Stage.idx : Stage → Nat
  | .New => 1
  | .Classification => 2
  | .DataExtraction => 3
  | .Processing => 4
  | .Done => 5

/-- A row of the `automations` table, restricted to the columns the
workflow core reads or writes (`backend/supabase_schema.sql` plus the
`ALTER TABLE` additions of `backend/workflow_schema.sql`). -/
structure Item where
  id : Nat
  title : String
  stage : Stage
  created_at : Nat
  updated_at : Nat
  processing_started_at : Option Nat
  processing_completed_at : Option Nat
  retry_count : Int
  last_error : Option String
  assigned_worker : Option String
deriving DecidableEq, Repr

/-- A row of the `workflow_events` audit table.  The `metadata` JSONB
column only ever receives the object built by `track_stage_changes`
(previous and new `updated_at`), so it is modelled as an optional pair. -/
structure WorkflowEvent where
  automation_id : Nat
  event_type : String
  from_stage : Option Stage
  to_stage : Option Stage
  worker_id : Option String
  metadata : Option (Nat × Nat)
  error_message : Option String
  created_at : Nat
deriving DecidableEq, Repr

/-- A row of the `workflow_stats` table. -/
structure StatRow where
  stage : String
  date : Nat
  items_processed : Int
  avg_processing_time_seconds : Option Rat
  success_count : Int
  error_count : Int
  created_at : Nat
  updated_at : Nat
deriving DecidableEq, Repr

/-- The persistent state owned by the core: the `automations` table, the
`workflow_events` append log (in insertion order) and the
`workflow_stats` table. -/
structure DB where
  items : List Item
  events : List WorkflowEvent
  stats : List StatRow
deriving DecidableEq, Repr

/-- The SQL function `log_workflow_event`: inserts one row into
`workflow_events` and returns (here: ignores) its id. -/
def log_workflow_event (db : DB) (aid : Nat) (etype : String)
    (from_s to_s : Option Stage) (wid : Option String)
    (meta : Option (Nat × Nat)) (err : Option String) (now : Nat) : DB :=
  { db with events := db.events ++
      [{ automation_id := aid, event_type := etype, from_stage := from_s,
         to_stage := to_s, worker_id := wid, metadata := meta,
         error_message := err, created_at := now }] }

/-- The AFTER UPDATE trigger function `track_stage_changes`: when
`OLD.stage IS DISTINCT FROM NEW.stage` it calls `log_workflow_event` with
event type `stage_changed`, `OLD.stage`, `NEW.stage`,
`NEW.assigned_worker` and a metadata object holding the previous and new
`updated_at`; otherwise it logs nothing. -/
def track_stage_changes (old new : Item) (now : Nat)
    (events : List WorkflowEvent) : List WorkflowEvent :=
  if old.stage ≠ new.stage then
    events ++
      [{ automation_id := new.id, event_type := "stage_changed",
         from_stage := some old.stage, to_stage := some new.stage,
         worker_id := new.assigned_worker,
         metadata := some (old.updated_at, new.updated_at),
         error_message := none, created_at := now }]
  else events

/-- The NEW row of an UPDATE on `automations`: the caller's column
assignments `f`, then the BEFORE UPDATE trigger
`update_updated_at_column` stamping `updated_at = NOW()`. -/
def newRow (f : Item → Item) (now : Nat) (old : Item) : Item :=
  { f old with updated_at := now }

/-- An UPDATE of a single `automations` row identified by primary key:
the row is replaced by `newRow f now` and the AFTER UPDATE trigger
`track_stage_changes` runs on the (OLD, NEW) pair.  A missing id updates
nothing. -/
def applyUpdate (db : DB) (iid : Nat) (f : Item → Item) (now : Nat) : DB :=
  match db.items.find? (fun it => it.id == iid) with
  | none => db
  | some old =>
      { db with
        items := db.items.map (fun it => if it.id == iid then newRow f now it else it),
        events := track_stage_changes old (newRow f now old) now db.events }

/-- The frontend stage change path (`onChangeStage` in
`frontend/src/app/(app)/pipeline/page.tsx`): a PATCH that sets the
item's `stage` column to an arbitrary chosen stage. -/
def onChangeStage (db : DB) (iid : Nat) (s : Stage) (now : Nat) : DB :=
  applyUpdate db iid (fun it => { it with stage := s }) now

/-- The UPDATE branch of `update_workflow_stats`.  PostgreSQL evaluates
every SET expression against the pre-update row, so `items_processed`
inside the average formula is the OLD count, and SQL NULL propagates
through the arithmetic (a NULL `avg_processing_time_seconds` stays NULL
even when a duration is supplied). -/
def updateStatRow (r : StatRow) (now : Nat) (dur : Option Rat)
    (succ : Bool) : StatRow :=
  { r with
    items_processed := r.items_processed + 1
    success_count := r.success_count + (if succ then 1 else 0)
    error_count := r.error_count + (if succ then 0 else 1)
    avg_processing_time_seconds :=
      match dur with
      | some d =>
          r.avg_processing_time_seconds.map
            (fun a => (a * ((r.items_processed : Rat) - 1) + d) /
              (r.items_processed : Rat))
      | none => r.avg_processing_time_seconds
    updated_at := now }

/-- The INSERT branch of `update_workflow_stats`: a fresh daily row. -/
def insertStatRow (s : String) (d : Nat) (now : Nat) (dur : Option Rat)
    (succ : Bool) : StatRow :=
  { stage := s, date := d, items_processed := 1,
    avg_processing_time_seconds := dur,
    success_count := if succ then 1 else 0,
    error_count := if succ then 0 else 1,
    created_at := now, updated_at := now }

/-- Lookup of the daily row for a (stage, date) key, as the
`SELECT * INTO current_stats ... WHERE stage = p_stage AND date = today`
of `update_workflow_stats`. -/
def findStatRow (s : String) (d : Nat) (tbl : List StatRow) : Option StatRow :=
  tbl.find? (fun r => r.stage == s && r.date == d)

/-- The SQL function `update_workflow_stats(p_stage,
p_processing_time_seconds, p_success)`: an upsert on today's row —
UPDATE it when the SELECT finds it, otherwise INSERT a fresh row.
`today` stands for `CURRENT_DATE` and `now` for `NOW()`. -/
def update_workflow_stats (p_stage : String) (today : Nat) (now : Nat)
    (p_processing_time_seconds : Option Rat) (p_success : Bool)
    (tbl : List StatRow) : List StatRow :=
  if (findStatRow p_stage today tbl).isSome then
    tbl.map (fun r =>
      if r.stage == p_stage && r.date == today then
        updateStatRow r now p_processing_time_seconds p_success
      else r)
  else
    tbl ++ [insertStatRow p_stage today now p_processing_time_seconds p_success]

/-- A row of the `recent_workflow_activity` view. -/
structure ActivityRow where
  created_at : Nat
  event_type : String
  from_stage : Option Stage
  to_stage : Option Stage
  worker_id : Option String
  automation_title : String
  automation_id : Nat
  error_message : Option String
deriving DecidableEq, Repr

/-- The JOIN of `workflow_events` with `automations` on
`we.automation_id = a.id`, projected to the view's columns. -/
def joinActivity (db : DB) : List ActivityRow :=
  db.events.filterMap (fun e =>
    (db.items.find? (fun it => it.id == e.automation_id)).map (fun a =>
      { created_at := e.created_at, event_type := e.event_type,
        from_stage := e.from_stage, to_stage := e.to_stage,
        worker_id := e.worker_id, automation_title := a.title,
        automation_id := a.id, error_message := e.error_message }))

/-- The view's `ORDER BY we.created_at DESC` comparison: `a` comes no
later than `b` in the output when `a.created_at ≥ b.created_at`. -/
def recentOrder (a b : ActivityRow) : Prop :=
  b.created_at ≤ a.created_at

instance : DecidableRel recentOrder := fun a b =>
  Nat.decLe b.created_at a.created_at

instance : IsTotal ActivityRow recentOrder :=
  ⟨fun a b => (Nat.le_total b.created_at a.created_at).imp id id⟩

instance : IsTrans ActivityRow recentOrder :=
  ⟨fun _ _ _ hab hbc => Nat.le_trans hbc hab⟩

/-- The view `recent_workflow_activity`: the event/automation join,
ordered by `created_at DESC`, limited to 100 rows. -/
def recent_workflow_activity (db : DB) : List ActivityRow :=
  ((joinActivity db).insertionSort recentOrder).take 100

/-- Modelled from the spec: the atomic compare-and-set at the heart of a
claim (§5 — "single underlying transaction or equivalent compare-and-set
on stage+assigned_worker").  The backend primitive lives in
`app/services/workflow_engine.py`, which is not among the shared
sources.  If the item is unclaimed the attempt sets `assigned_worker`
and `processing_started_at` in the same step and reports success;
otherwise it observes the item as already claimed, changes nothing and
reports the benign conflict (no error is raised). -/
def claimAttempt (w : String) (now : Nat) (it : Item) : Item × Bool :=
  if it.assigned_worker = none then
    ({ it with assigned_worker := some w, processing_started_at := some now },
      true)
  else (it, false)

/-- Modelled from the spec: a set of concurrent claim attempts on one
item.  Because each attempt is a single atomic transaction, any
concurrent execution is equivalent to running the attempts in some
serial order; the list gives that order, each entry a (worker id,
timestamp) pair, and the result pairs the final item with each
attempt's outcome in order. -/
def runClaims (it : Item) (ws : List (String × Nat)) : Item × List Bool :=
  match ws with
  | [] => (it, [])
  | (w, n) :: rest =>
      let step := claimAttempt w n it
      let out := runClaims step.1 rest
      (out.1, step.2 :: out.2)

/-- Modelled from the spec: the strict FIFO order on items used by
`claimNext` (§4.1 — "strict creation-time FIFO; ties broken by id for
determinism"). -/
def fifoBefore (a b : Item) : Prop :=
  a.created_at < b.created_at ∨ (a.created_at = b.created_at ∧ a.id < b.id)

instance : DecidableRel fifoBefore := fun a b => by
  unfold fifoBefore; infer_instance

/-- One step of the FIFO-minimum selection: keep the earlier of the
accumulator and the next candidate. -/
def pickStep (acc : Option Item) (it : Item) : Option Item :=
  match acc with
  | none => some it
  | some b => if fifoBefore it b then some it else some b

/-- Modelled from the spec: selection of the FIFO-minimal element of a
candidate list (the `ORDER BY created_at, id LIMIT 1` of a claim
query). -/
def pickOldest (l : List Item) : Option Item :=
  l.foldl pickStep none

/-- The unclaimed items currently in a given stage (the claim query's
WHERE clause: `stage = p_stage AND assigned_worker IS NULL`). -/
def unclaimedIn (db : DB) (s : Stage) : List Item :=
  db.items.filter (fun it => decide (it.stage = s ∧ it.assigned_worker = none))

/-- Modelled from the spec: `claimNext(stage, workerId)` (§4.1) —
atomically selects the oldest unclaimed item in the stage (creation-time
FIFO, ties by id), sets `assigned_worker` and `processing_started_at` in
the same atomic step, and returns none on an empty queue without
blocking, raising, or touching state. -/
def claimNext (db : DB) (s : Stage) (w : String) (now : Nat) :
    Option Item × DB :=
  match pickOldest (unclaimedIn db s) with
  | none => (none, db)
  | some it =>
      (some it,
        applyUpdate db it.id
          (fun i => { i with assigned_worker := some w,
                             processing_started_at := some now }) now)

/-- The operations of the workflow core (§4.1): claim, optimistic
transition, failure record and administrative manual transition. -/
inductive CoreOp where
  | claim (s : Stage) (w : String) (now : Nat)
  | transition (iid : Nat) (expectedFrom toS : Stage) (w : String) (now : Nat)
  | recordFailure (iid : Nat) (w : String) (err : String) (now : Nat)
  | manualTransition (iid : Nat) (toS : Stage) (tag : String) (now : Nat)

/-- Modelled from the spec: the effect of each core operation on the
persistent state (§4.1), reusing the embedded SQL pieces where the
repository has them — every item UPDATE goes through `applyUpdate`
(hence the `track_stage_changes` trigger) and every explicit event write
through `log_workflow_event`.  `transition` checks stage and worker
optimistically and on mismatch (StaleStateError) changes nothing;
`recordFailure` increments `retry_count`, sets `last_error`, clears the
worker and appends an `error_occurred` event; `manualTransition`
enforces forward-only order and logs with the operator tag as worker
id.  None of the operations deletes or rewrites history. -/
def withItem (db : DB) (iid : Nat) (g : Item → DB) : DB :=
  match db.items.find? (fun it => it.id == iid) with
  | none => db
  | some it => g it

def applyCoreOp (op : CoreOp) (db : DB) : DB :=
  match op with
  | .claim s w now => (claimNext db s w now).2
  | .transition iid expectedFrom toS w now =>
      withItem db iid (fun it =>
        if it.stage = expectedFrom ∧ it.assigned_worker = some w then
          applyUpdate db iid
            (fun i => { i with stage := toS, assigned_worker := none,
                               processing_started_at := none,
                               processing_completed_at := some now,
                               retry_count := 0 }) now
        else db)
  | .recordFailure iid w err now =>
      withItem db iid (fun it =>
        if it.assigned_worker = some w then
          log_workflow_event
            (applyUpdate db iid
              (fun i => { i with retry_count := i.retry_count + 1,
                                 last_error := some err,
                                 assigned_worker := none }) now)
            iid "error_occurred" (some it.stage) none (some w) none
            (some err) now
        else db)
  | .manualTransition iid toS tag now =>
      withItem db iid (fun it =>
        if it.stage.idx < toS.idx then
          log_workflow_event
            { db with items := db.items.map (fun i =>
                if i.id == iid then
                  { i with stage := toS, assigned_worker := none,
                           updated_at := now }
                else i) }
            iid "stage_changed" (some it.stage) (some toS) (some tag)
            none none now
        else db)

/-! ### Helper lemmas about the stats upsert -/

/-- The UPDATE branch of the upsert preserves a row's (stage, date) key. -/
lemma updateStatRow_key (r : StatRow) (now : Nat) (dur : Option Rat)
    (succ : Bool) :
    (updateStatRow r now dur succ).stage = r.stage ∧
      (updateStatRow r now dur succ).date = r.date := by
  simp [updateStatRow]

/-- Lookup after the keyed map of the UPDATE branch: the first row with
the key is the updated image of the first old row with the key. -/
lemma find?_update_map (s : String) (d now : Nat) (dur : Option Rat)
    (succ : Bool) (tbl : List StatRow) :
    (tbl.map (fun r => if r.stage == s && r.date == d then
        updateStatRow r now dur succ else r)).find?
      (fun r => r.stage == s && r.date == d) =
    (tbl.find? (fun r => r.stage == s && r.date == d)).map
      (fun r => updateStatRow r now dur succ) := by
  induction tbl with
  | nil => rfl
  | cons a tl ih =>
      by_cases h : (a.stage == s && a.date == d) = true
      · have hk : ((updateStatRow a now dur succ).stage == s &&
            (updateStatRow a now dur succ).date == d) = true := by
          simpa [updateStatRow] using h
        simp only [List.map_cons, if_pos h, List.find?]
        rw [hk, h]
        rfl
      · have hf : (a.stage == s && a.date == d) = false := by
          simpa using h
        simp only [List.map_cons, if_neg h, List.find?]
        rw [hf]
        exact ih

/-- A fresh daily row matches its own key. -/
lemma insertStatRow_key (s : String) (d now : Nat) (dur : Option Rat)
    (succ : Bool) :
    ((insertStatRow s d now dur succ).stage == s &&
      (insertStatRow s d now dur succ).date == d) = true := by
  simp [insertStatRow]

/-! ### Claim theorems -/

/-- C1: the spec claims that recording a success with a measured
duration recomputes `avg_processing_time_seconds` as
`(old_avg*(n-1) + duration)/n` with `n` the post-increment
`items_processed`, so that two successes with durations 10 and 20 yield
an average of 15.  The SQL UPDATE branch, however, evaluates
`items_processed` in the SET expression against the pre-update row, so
after the two successes the code stores an average of 20, not 15. -/
theorem stats_avg_after_durations_ten_twenty :
    (findStatRow "Classification" 0
      (update_workflow_stats "Classification" 0 2 (some 20) true
        (update_workflow_stats "Classification" 0 1 (some 10) true []))).map
      (fun r => r.avg_processing_time_seconds) = some (some 20) ∧
    (findStatRow "Classification" 0
      (update_workflow_stats "Classification" 0 2 (some 20) true
        (update_workflow_stats "Classification" 0 1 (some 10) true []))).map
      (fun r => r.avg_processing_time_seconds) ≠ some (some 15) := by
  constructor
  · simp [update_workflow_stats, findStatRow, insertStatRow, updateStatRow]
  · simp [update_workflow_stats, findStatRow, insertStatRow, updateStatRow]

/-- C7: recording a failure with no measured duration increments
`items_processed` and `error_count` on the stage's daily row and leaves
`avg_processing_time_seconds` and `success_count` unchanged (a fresh
row, when none exists yet, starts with one processed item, one error, no
success and a NULL average); rows of every other (stage, date) key are
untouched. -/
theorem failure_without_duration_frame (s : String) (d now : Nat)
    (tbl : List StatRow) :
    findStatRow s d (update_workflow_stats s d now none false tbl) =
      some (match findStatRow s d tbl with
        | some r => { r with items_processed := r.items_processed + 1,
                             error_count := r.error_count + 1,
                             updated_at := now }
        | none => insertStatRow s d now none false) ∧
    ∀ r ∈ update_workflow_stats s d now none false tbl,
      (r.stage == s && r.date == d) = false → r ∈ tbl := by
  constructor
  · unfold update_workflow_stats
    rcases h : findStatRow s d tbl with _ | r₀
    · simp only [h, Option.isSome_none, Bool.false_eq_true, if_false]
      unfold findStatRow at h ⊢
      rw [List.find?_append, h, Option.none_or, List.find?]
      rw [insertStatRow_key]
    · simp only [h, Option.isSome_some, if_true]
      unfold findStatRow at h ⊢
      rw [find?_update_map, h]
      simp [updateStatRow]
  · intro r hr hkey
    unfold update_workflow_stats at hr
    split at hr
    · rcases List.mem_map.mp hr with ⟨a, ha, hra⟩
      by_cases hk : (a.stage == s && a.date == d) = true
      · rw [if_pos hk] at hra
        have : (r.stage == s && r.date == d) = true := by
          subst hra; simpa [updateStatRow] using hk
        rw [this] at hkey; cases hkey
      · rw [if_neg hk] at hra; subst hra; exact ha
    · rcases List.mem_append.mp hr with ha | ha
      · exact ha
      · have : r = insertStatRow s d now none false := by simpa using ha
        rw [this, insertStatRow_key] at hkey; cases hkey

/-- C7 witness: a concrete run of the failure-without-duration upsert on
a table holding one prior success, checked against the theorem. -/
theorem failure_without_duration_frame_witness :
    findStatRow "New" 7
      (update_workflow_stats "New" 7 3 none false
        [insertStatRow "New" 7 1 (some 10) true]) =
      some { insertStatRow "New" 7 1 (some 10) true with
        items_processed := 2, error_count := 1, updated_at := 3 } := by
  have h := (failure_without_duration_frame "New" 7 3
    [insertStatRow "New" 7 1 (some 10) true]).1
  rw [h]
  rfl

/-- The `UNIQUE(stage, date)` constraint of the `workflow_stats` table:
no two rows share a (stage, date) key. -/
def UniqueKeys (tbl : List StatRow) : Prop :=
  tbl.Pairwise (fun a b => ¬(a.stage = b.stage ∧ a.date = b.date))

/-- C8: for every stage and date there is at most one stats row —
uniqueness of (stage, date) keys is preserved by the upsert, the first
recording of a stage's day inserts a single fresh row with
`items_processed = 1`, and every later recording for that key updates
the existing row in place without adding a row. -/
theorem stats_upsert_single_row_per_stage_day (s : String) (d now : Nat)
    (dur : Option Rat) (succ : Bool) (tbl : List StatRow)
    (h : UniqueKeys tbl) :
    UniqueKeys (update_workflow_stats s d now dur succ tbl) ∧
    (findStatRow s d tbl = none →
      update_workflow_stats s d now dur succ tbl =
        tbl ++ [insertStatRow s d now dur succ] ∧
      (insertStatRow s d now dur succ).items_processed = 1) ∧
    (∀ r, findStatRow s d tbl = some r →
      (update_workflow_stats s d now dur succ tbl).length = tbl.length ∧
      findStatRow s d (update_workflow_stats s d now dur succ tbl) =
        some (updateStatRow r now dur succ)) := by
  refine ⟨?_, ?_, ?_⟩
  · unfold update_workflow_stats
    split
    · refine List.pairwise_map.mpr (h.imp ?_)
      intro a b hab
      have ka : ∀ x : StatRow,
          ((if x.stage == s && x.date == d then updateStatRow x now dur succ
            else x).stage = x.stage ∧
           (if x.stage == s && x.date == d then updateStatRow x now dur succ
            else x).date = x.date) := by
        intro x; split
        · simp [updateStatRow]
        · exact ⟨rfl, rfl⟩
      rw [(ka a).1, (ka a).2, (ka b).1, (ka b).2]
      exact hab
    · rename_i hnone
      have hn : findStatRow s d tbl = none := by
        simpa using hnone
      refine List.pairwise_append.mpr ⟨h, List.pairwise_singleton _ _, ?_⟩
      intro a ha b hb
      have hb' : b = insertStatRow s d now dur succ := by simpa using hb
      have hpa := List.find?_eq_none.mp hn a ha
      intro hk
      apply hpa
      rw [hb'] at hk
      simp only [insertStatRow] at hk
      simp [hk.1, hk.2]
  · intro hn
    refine ⟨?_, rfl⟩
    unfold update_workflow_stats
    rw [if_neg]
    simp [hn]
  · intro r hr
    have hs : (findStatRow s d tbl).isSome = true := by
      simp [hr]
    constructor
    · unfold update_workflow_stats
      rw [if_pos hs, List.length_map]
    · unfold update_workflow_stats
      rw [if_pos hs]
      unfold findStatRow at hr ⊢
      rw [find?_update_map, hr, Option.map_some']

/-- C8 witness: the first recording for a fresh (stage, date) key
inserts exactly one row with `items_processed = 1`, applied at a
concrete empty table. -/
theorem stats_upsert_single_row_per_stage_day_witness :
    UniqueKeys (update_workflow_stats "New" 0 0 (some 5) true []) ∧
    update_workflow_stats "New" 0 0 (some 5) true [] =
      [insertStatRow "New" 0 0 (some 5) true] ∧
    (insertStatRow "New" 0 0 (some 5) true).items_processed = 1 := by
  have h := stats_upsert_single_row_per_stage_day "New" 0 0 (some 5) true []
    (by simp [UniqueKeys])
  refine ⟨h.1, ?_, (h.2.1 rfl).2⟩
  have := (h.2.1 rfl).1
  simpa using this

/-- The implicit accounting invariant of `workflow_stats`: processed
items split exactly into successes and errors. -/
def statsInvariant (tbl : List StatRow) : Prop :=
  ∀ r ∈ tbl, r.items_processed = r.success_count + r.error_count

/-- C10: every `workflow_stats` row satisfies
`items_processed = success_count + error_count`; the invariant holds for
a freshly inserted row and is preserved by every stats-recording update,
for successes and for failures alike. -/
theorem stats_items_eq_success_plus_error (s : String) (d now : Nat)
    (dur : Option Rat) (succ : Bool) (tbl : List StatRow)
    (h : statsInvariant tbl) :
    statsInvariant (update_workflow_stats s d now dur succ tbl) := by
  intro r hr
  unfold update_workflow_stats at hr
  split at hr
  · rcases List.mem_map.mp hr with ⟨a, ha, rfl⟩
    have hinv := h a ha
    split
    · cases succ <;> simp [updateStatRow] <;> omega
    · exact hinv
  · rcases List.mem_append.mp hr with ha | ha
    · exact h r ha
    · have : r = insertStatRow s d now dur succ := by simpa using ha
      rw [this]
      cases succ <;> simp [insertStatRow]

/-- C10 witness: the invariant after a success recording and a failure
recording on an initially empty table, via the preservation theorem. -/
theorem stats_items_eq_success_plus_error_witness :
    statsInvariant (update_workflow_stats "Done" 1 4 none false
      (update_workflow_stats "Done" 1 2 (some 10) true [])) := by
  have h0 : statsInvariant ([] : List StatRow) := by
    intro r hr; cases hr
  exact stats_items_eq_success_plus_error "Done" 1 4 none false _
    (stats_items_eq_success_plus_error "Done" 1 2 (some 10) true [] h0)

/-- A concrete item used to instantiate the theorems below. -/
def demoItem : Item :=
  { id := 0, title := "Invoice-A", stage := .New, created_at := 0,
    updated_at := 0, processing_started_at := none,
    processing_completed_at := none, retry_count := 0, last_error := none,
    assigned_worker := none }

/-- A one-item database in the entry stage. -/
def demoDB : DB := { items := [demoItem], events := [], stats := [] }

/-- A one-item database whose item already reached the terminal stage. -/
def doneDB : DB :=
  { items := [{ demoItem with stage := .Done }], events := [], stats := [] }

/-- C3: an UPDATE of an item whose stage changes appends exactly one
`stage_changed` event, carrying `from_stage` equal to the stage before
the update and `to_stage` equal to the stage after it; an update leaving
the stage unchanged appends no event. -/
theorem stage_update_appends_exactly_one_event (db : DB) (iid : Nat)
    (f : Item → Item) (now : Nat) (old : Item)
    (h : db.items.find? (fun it => it.id == iid) = some old) :
    (old.stage ≠ (newRow f now old).stage →
      (applyUpdate db iid f now).events = db.events ++
        [{ automation_id := (newRow f now old).id,
           event_type := "stage_changed",
           from_stage := some old.stage,
           to_stage := some (newRow f now old).stage,
           worker_id := (newRow f now old).assigned_worker,
           metadata := some (old.updated_at, now),
           error_message := none, created_at := now }]) ∧
    (old.stage = (newRow f now old).stage →
      (applyUpdate db iid f now).events = db.events) := by
  have hdb : (applyUpdate db iid f now).events =
      track_stage_changes old (newRow f now old) now db.events := by
    unfold applyUpdate
    rw [h]
  rw [hdb]
  constructor
  · intro hs
    simp only [newRow] at hs
    simp [track_stage_changes, newRow, hs]
  · intro hs
    simp [track_stage_changes, hs]

/-- C3 witness: moving the demo item from New to Classification appends
the one matching `stage_changed` event, via the theorem. -/
theorem stage_update_appends_exactly_one_event_witness :
    (applyUpdate demoDB 0 (fun it => { it with stage := .Classification })
      5).events =
      [{ automation_id := 0, event_type := "stage_changed",
         from_stage := some .New, to_stage := some .Classification,
         worker_id := none, metadata := some (0, 5),
         error_message := none, created_at := 5 }] := by
  have h := stage_update_appends_exactly_one_event demoDB 0
    (fun it => { it with stage := .Classification }) 5 demoItem rfl
  simpa [demoDB, demoItem, newRow] using h.1 (by decide)

/-- C2 counterexample: the update path accepts a backward stage change
(Done back to New) and the `track_stage_changes` trigger records it as a
`stage_changed` event whose `to_stage` is strictly earlier in the fixed
order than its `from_stage`, with `worker_id = NULL` — not an
administrative worker id.  The claimed forward-only invariant is
therefore false for the code. -/
theorem backward_stage_change_recorded_without_admin_tag :
    (onChangeStage doneDB 0 .New 1).events =
      [{ automation_id := 0, event_type := "stage_changed",
         from_stage := some .Done, to_stage := some .New,
         worker_id := none, metadata := some (0, 1),
         error_message := none, created_at := 1 }] ∧
    Stage.idx .New < Stage.idx .Done := by
  constructor
  · rfl
  · decide

/-- C2 amended: every event the `track_stage_changes` trigger appends is
a faithful record of the update that happened — event type
`stage_changed`, `from_stage` the old stage, `to_stage` the new stage
(in whatever direction), tagged with the row's `assigned_worker` — and
it fires exactly when the stage changed; no forward-only restriction is
enforced. -/
theorem stage_change_events_record_actual_transition (old new : Item)
    (now : Nat) (evs : List WorkflowEvent) (e : WorkflowEvent)
    (h : e ∈ track_stage_changes old new now evs) :
    e ∈ evs ∨
    (old.stage ≠ new.stage ∧ e.event_type = "stage_changed" ∧
      e.from_stage = some old.stage ∧ e.to_stage = some new.stage ∧
      e.worker_id = new.assigned_worker) := by
  unfold track_stage_changes at h
  split at h
  · rename_i hs
    rcases List.mem_append.mp h with h1 | h1
    · exact Or.inl h1
    · rw [List.mem_singleton] at h1
      subst h1
      exact Or.inr ⟨hs, rfl, rfl, rfl, rfl⟩
  · exact Or.inl h

/-- C2 amended witness: the backward Done-to-New event of the concrete
run is classified by the theorem as a faithful record of that update. -/
theorem stage_change_events_record_actual_transition_witness :
    ({ automation_id := 0, event_type := "stage_changed",
       from_stage := some .Done, to_stage := some .New,
       worker_id := none, metadata := some (0, 1),
       error_message := none, created_at := 1 } : WorkflowEvent) ∈
      ([] : List WorkflowEvent) ∨
    (({ demoItem with stage := .Done } : Item).stage ≠
        (newRow (fun it => { it with stage := .New }) 1
          { demoItem with stage := .Done }).stage ∧
      ("stage_changed" : String) = "stage_changed" ∧
      (some Stage.Done : Option Stage) = some Stage.Done ∧
      (some Stage.New : Option Stage) = some Stage.New ∧
      (none : Option String) = none) := by
  have h := stage_change_events_record_actual_transition
    { demoItem with stage := .Done }
    (newRow (fun it => { it with stage := .New }) 1
      { demoItem with stage := .Done }) 1 []
    { automation_id := 0, event_type := "stage_changed",
      from_stage := some .Done, to_stage := some .New,
      worker_id := none, metadata := some (0, 1),
      error_message := none, created_at := 1 }
    (by decide)
  exact h

/-! ### FIFO order lemmas and the claim primitives -/

/-- The FIFO order is irreflexive. -/
lemma fifo_irrefl (a : Item) : ¬ fifoBefore a a := by
  unfold fifoBefore
  omega

/-- The FIFO order is asymmetric. -/
lemma fifo_asymm {a b : Item} (h : fifoBefore a b) : ¬ fifoBefore b a := by
  unfold fifoBefore at *
  omega

/-- Chaining of non-strict FIFO comparisons: if `b` is not before `a`
and `c` is not before `b` then `c` is not before `a`. -/
lemma not_fifo_trans {a b c : Item} (h₁ : ¬ fifoBefore a b)
    (h₂ : ¬ fifoBefore b c) : ¬ fifoBefore a c := by
  unfold fifoBefore at *
  omega

/-- The fold underlying `pickOldest` returns a FIFO-minimal element of
the accumulator and the remaining candidates. -/
lemma foldl_pickStep_min (l : List Item) : ∀ b : Item,
    ∃ m, l.foldl pickStep (some b) = some m ∧ (m = b ∨ m ∈ l) ∧
      ¬ fifoBefore b m ∧ ∀ x ∈ l, ¬ fifoBefore x m := by
  induction l with
  | nil =>
      intro b
      exact ⟨b, rfl, Or.inl rfl, fifo_irrefl b, by simp⟩
  | cons it rest ih =>
      intro b
      by_cases hc : fifoBefore it b
      · rcases ih it with ⟨m, hm, hmem, hitm, hall⟩
        refine ⟨m, ?_, ?_, ?_, ?_⟩
        · simpa [pickStep, hc] using hm
        · rcases hmem with rfl | hmr
          · exact Or.inr (List.mem_cons_self _ _)
          · exact Or.inr (List.mem_cons_of_mem _ hmr)
        · exact not_fifo_trans (fifo_asymm hc) hitm
        · intro x hx
          rcases List.mem_cons.mp hx with rfl | hxr
          · exact hitm
          · exact hall x hxr
      · rcases ih b with ⟨m, hm, hmem, hbm, hall⟩
        refine ⟨m, ?_, ?_, ?_, ?_⟩
        · simpa [pickStep, hc] using hm
        · rcases hmem with rfl | hmr
          · exact Or.inl rfl
          · exact Or.inr (List.mem_cons_of_mem _ hmr)
        · exact hbm
        · intro x hx
          rcases List.mem_cons.mp hx with rfl | hxr
          · exact not_fifo_trans hc hbm
          · exact hall x hxr

/-- When `pickOldest` returns an item, that item belongs to the
candidate list and no candidate is strictly before it in FIFO order. -/
lemma pickOldest_min (l : List Item) (m : Item) (h : pickOldest l = some m) :
    m ∈ l ∧ ∀ x ∈ l, ¬ fifoBefore x m := by
  cases l with
  | nil => cases h
  | cons a tl =>
      rcases foldl_pickStep_min tl a with ⟨m', hm', hmem, hbm, hall⟩
      have h' : tl.foldl pickStep (some a) = some m := h
      rw [hm'] at h'
      cases h'
      constructor
      · rcases hmem with rfl | hmr
        · exact List.mem_cons_self _ _
        · exact List.mem_cons_of_mem _ hmr
      · intro x hx
        rcases List.mem_cons.mp hx with rfl | hxr
        · exact hbm
        · exact hall x hxr

/-- C6: `claimNext` on an empty queue of unclaimed items in the stage
returns none without touching any state, and whenever it returns an
item, that item is an unclaimed member of the stage and no unclaimed
item of the stage is strictly older (creation-time FIFO with ties
broken by id). -/
theorem claimNext_fifo_and_empty_noop (db : DB) (s : Stage) (w : String)
    (now : Nat) :
    (unclaimedIn db s = [] → claimNext db s w now = (none, db)) ∧
    (∀ it, (claimNext db s w now).1 = some it →
      it ∈ unclaimedIn db s ∧ it.stage = s ∧ it.assigned_worker = none ∧
      ∀ x ∈ unclaimedIn db s, ¬ fifoBefore x it) := by
  constructor
  · intro h
    unfold claimNext
    rw [h]
    rfl
  · intro it hit
    unfold claimNext at hit
    cases hp : pickOldest (unclaimedIn db s) with
    | none =>
        rw [hp] at hit
        cases hit
    | some m =>
        rw [hp] at hit
        have hmi : m = it := by simpa using hit
        subst hmi
        rcases pickOldest_min _ _ hp with ⟨hmem, hall⟩
        have hpr : m.stage = s ∧ m.assigned_worker = none := by
          have hf := List.mem_filter.mp hmem
          exact of_decide_eq_true hf.2
        exact ⟨hmem, hpr.1, hpr.2, hall⟩

/-- C6 witness: on a database whose only item sits in the entry stage,
claiming from the Processing stage finds an empty queue and returns
none with the state unchanged, via the theorem. -/
theorem claimNext_fifo_and_empty_noop_witness :
    claimNext demoDB .Processing "worker-1" 9 = (none, demoDB) :=
  (claimNext_fifo_and_empty_noop demoDB .Processing "worker-1" 9).1 rfl

/-- Losing claim attempts leave a claimed item untouched and all report
the already-claimed outcome. -/
lemma runClaims_of_claimed (it : Item) (hw : it.assigned_worker ≠ none) :
    ∀ ws : List (String × Nat),
      runClaims it ws = (it, List.replicate ws.length false) := by
  intro ws
  induction ws with
  | nil => rfl
  | cons p rest ih =>
      obtain ⟨w, n⟩ := p
      simp [runClaims, claimAttempt, hw, ih, List.replicate_succ]

/-- C4: of any serialization of N concurrent claim attempts on an
unclaimed item by distinct workers, exactly the first succeeds — it sets
`assigned_worker` and `processing_started_at` in one atomic step — and
every other attempt observes the item as already claimed, changes
nothing and reports no error. -/
theorem concurrent_claims_exactly_one_winner (it : Item) (w : String)
    (n : Nat) (rest : List (String × Nat))
    (h : it.assigned_worker = none)
    (_hd : (((w, n) :: rest).map Prod.fst).Nodup) :
    runClaims it ((w, n) :: rest) =
      ({ it with assigned_worker := some w,
                 processing_started_at := some n },
        true :: List.replicate rest.length false) ∧
    (runClaims it ((w, n) :: rest)).2.count true = 1 := by
  have hc : ({ it with assigned_worker := some w,
                       processing_started_at := some n } :
      Item).assigned_worker ≠ none := by
    simp
  have h2 := runClaims_of_claimed _ hc rest
  constructor
  · simp [runClaims, claimAttempt, h, h2]
  · simp [runClaims, claimAttempt, h, h2, List.count_cons,
      List.count_replicate]

/-- C4 witness: three distinct workers race for the demo item; the first
claim wins and the other two observe it as already claimed. -/
theorem concurrent_claims_exactly_one_winner_witness :
    runClaims { demoItem with stage := .Classification }
      [("worker-1", 1), ("worker-2", 1), ("worker-3", 2)] =
      ({ demoItem with stage := .Classification,
                       assigned_worker := some "worker-1",
                       processing_started_at := some 1 },
        [true, false, false]) := by
  have h := concurrent_claims_exactly_one_winner
    { demoItem with stage := .Classification } "worker-1" 1
    [("worker-2", 1), ("worker-3", 2)] rfl (by decide)
  simpa using h.1

/-! ### Append-only behaviour of the core operations -/

/-- An item UPDATE only ever appends to the event log. -/
lemma events_prefix_applyUpdate (db : DB) (iid : Nat) (f : Item → Item)
    (now : Nat) :
    db.events <+: (applyUpdate db iid f now).events := by
  unfold applyUpdate
  cases db.items.find? (fun it => it.id == iid) with
  | none => exact ⟨[], List.append_nil _⟩
  | some old =>
      show db.events <+:
        track_stage_changes old (newRow f now old) now db.events
      unfold track_stage_changes
      split
      · exact ⟨_, rfl⟩
      · exact ⟨[], List.append_nil _⟩

/-- An item UPDATE whose column assignments keep the primary key leaves
the list of item ids unchanged: nothing is inserted or deleted. -/
lemma map_id_applyUpdate (db : DB) (iid : Nat) (f : Item → Item)
    (now : Nat) (hf : ∀ it, (f it).id = it.id) :
    (applyUpdate db iid f now).items.map Item.id =
      db.items.map Item.id := by
  unfold applyUpdate
  cases db.items.find? (fun it => it.id == iid) with
  | none => rfl
  | some old =>
      show (db.items.map (fun it =>
        if it.id == iid then newRow f now it else it)).map Item.id =
          db.items.map Item.id
      simp only [List.map_map]
      refine List.map_congr_left ?_
      intro a _
      show Item.id (if a.id == iid then newRow f now a else a) = Item.id a
      split
      · simp [newRow, hf]
      · rfl

/-- Event-log growth and item preservation lift through the
find-the-row combinator. -/
lemma withItem_events (db : DB) (iid : Nat) (g : Item → DB)
    (hg : ∀ it, db.events <+: (g it).events) :
    db.events <+: (withItem db iid g).events := by
  unfold withItem
  cases db.items.find? (fun it => it.id == iid) with
  | none => exact ⟨[], List.append_nil _⟩
  | some it => exact hg it

/-- Item-id preservation lifts through the find-the-row combinator. -/
lemma withItem_ids (db : DB) (iid : Nat) (g : Item → DB)
    (hg : ∀ it, (g it).items.map Item.id = db.items.map Item.id) :
    (withItem db iid g).items.map Item.id = db.items.map Item.id := by
  unfold withItem
  cases db.items.find? (fun it => it.id == iid) with
  | none => rfl
  | some it => exact hg it

/-- C5: every core operation — claim, optimistic transition, failure
record, manual override — only appends to the `workflow_events` log
(existing event rows are never removed or modified) and preserves the
list of item ids (no core operation deletes an item). -/
theorem core_ops_append_only_and_preserve_items (op : CoreOp) (db : DB) :
    db.events <+: (applyCoreOp op db).events ∧
    (applyCoreOp op db).items.map Item.id = db.items.map Item.id := by
  cases op with
  | claim s w now =>
      simp only [applyCoreOp, claimNext]
      cases pickOldest (unclaimedIn db s) with
      | none => exact ⟨⟨[], List.append_nil _⟩, rfl⟩
      | some it =>
          exact ⟨events_prefix_applyUpdate db it.id _ now,
            map_id_applyUpdate db it.id _ now (fun _ => rfl)⟩
  | transition iid ef ts w now =>
      simp only [applyCoreOp]
      constructor
      · refine withItem_events db iid _ ?_
        intro it
        by_cases hc : it.stage = ef ∧ it.assigned_worker = some w
        · rw [if_pos hc]
          exact events_prefix_applyUpdate db iid _ now
        · rw [if_neg hc]
      · refine withItem_ids db iid _ ?_
        intro it
        by_cases hc : it.stage = ef ∧ it.assigned_worker = some w
        · rw [if_pos hc]
          exact map_id_applyUpdate db iid _ now (fun _ => rfl)
        · rw [if_neg hc]
  | recordFailure iid w err now =>
      simp only [applyCoreOp]
      constructor
      · refine withItem_events db iid _ ?_
        intro it
        by_cases hc : it.assigned_worker = some w
        · rw [if_pos hc]
          exact (events_prefix_applyUpdate db iid _ now).trans ⟨_, rfl⟩
        · rw [if_neg hc]
      · refine withItem_ids db iid _ ?_
        intro it
        by_cases hc : it.assigned_worker = some w
        · rw [if_pos hc]
          exact map_id_applyUpdate db iid _ now (fun _ => rfl)
        · rw [if_neg hc]
  | manualTransition iid ts tag now =>
      simp only [applyCoreOp]
      constructor
      · refine withItem_events db iid _ ?_
        intro it
        by_cases hc : it.stage.idx < ts.idx
        · rw [if_pos hc]
          exact ⟨_, rfl⟩
        · rw [if_neg hc]
      · refine withItem_ids db iid _ ?_
        intro it
        by_cases hc : it.stage.idx < ts.idx
        · rw [if_pos hc]
          show (db.items.map (fun i =>
            if i.id == iid then
              { i with stage := ts, assigned_worker := none,
                       updated_at := now }
            else i)).map Item.id = db.items.map Item.id
          simp only [List.map_map]
          refine List.map_congr_left ?_
          intro a _
          show Item.id (if a.id == iid then
            { a with stage := ts, assigned_worker := none,
                     updated_at := now } else a) = Item.id a
          split
          · rfl
          · rfl
        · rw [if_neg hc]

/-- C9: the `recent_workflow_activity` view returns at most 100 rows —
exactly `min 100 n` of the `n` joined events — ordered newest first by
`created_at` descending; every returned row is an event joined with the
title of the item it refers to, and no event left beyond the 100-row
limit is newer than any returned row. -/
theorem recent_activity_newest_first_top100 (db : DB) :
    (recent_workflow_activity db).Sorted recentOrder ∧
    (recent_workflow_activity db).length = min 100 (joinActivity db).length ∧
    (∀ r ∈ recent_workflow_activity db, ∃ e ∈ db.events, ∃ a ∈ db.items,
      a.id = e.automation_id ∧ r.automation_title = a.title ∧
      r.created_at = e.created_at ∧ r.event_type = e.event_type) ∧
    (∀ r ∈ recent_workflow_activity db,
      ∀ x ∈ ((joinActivity db).insertionSort recentOrder).drop 100,
        x.created_at ≤ r.created_at) := by
  refine ⟨?_, ?_, ?_, ?_⟩
  · exact List.Pairwise.sublist (List.take_sublist 100 _)
      (List.sorted_insertionSort recentOrder (joinActivity db))
  · unfold recent_workflow_activity
    rw [List.length_take, List.length_insertionSort]
  · intro r hr
    have hr1 : r ∈ (joinActivity db).insertionSort recentOrder :=
      List.take_subset _ _ hr
    have hr2 : r ∈ joinActivity db :=
      (List.mem_insertionSort recentOrder).mp hr1
    rcases List.mem_filterMap.mp hr2 with ⟨e, he, hfe⟩
    rcases Option.map_eq_some'.mp hfe with ⟨a, hfind, hra⟩
    subst hra
    refine ⟨e, he, a, List.mem_of_find?_eq_some hfind, ?_, rfl, rfl, rfl⟩
    have hp := List.find?_some hfind
    simpa using hp
  · intro r hr x hx
    have hs := List.sorted_insertionSort recentOrder (joinActivity db)
    have hsplit :=
      List.take_append_drop 100 ((joinActivity db).insertionSort recentOrder)
    rw [← hsplit] at hs
    exact (List.pairwise_append.mp hs).2.2 r hr x hx

/-- A concrete audit event for instantiating the view theorem. -/
def actEvent (t : Nat) : WorkflowEvent :=
  { automation_id := 0, event_type := "processing_started",
    from_stage := none, to_stage := none, worker_id := some "worker-1",
    metadata := none, error_message := none, created_at := t }

/-- A two-event database for the view witness. -/
def actDB : DB :=
  { items := [demoItem], events := [actEvent 5, actEvent 9], stats := [] }

/-- The view row produced for the later of the two demo events. -/
def actRow : ActivityRow :=
  { created_at := 9, event_type := "processing_started",
    from_stage := none, to_stage := none, worker_id := some "worker-1",
    automation_title := "Invoice-A", automation_id := 0,
    error_message := none }

/-- C9 witness: on the two-event database the view output is sorted
newest first and its newest row joins the later event with the demo
item's title, via the theorem. -/
theorem recent_activity_newest_first_top100_witness :
    (recent_workflow_activity actDB).Sorted recentOrder ∧
    ∃ e ∈ actDB.events, ∃ a ∈ actDB.items, a.id = e.automation_id ∧
      actRow.automation_title = a.title ∧
      actRow.created_at = e.created_at ∧
      actRow.event_type = e.event_type := by
  have h := recent_activity_newest_first_top100 actDB
  exact ⟨h.1, h.2.2.1 actRow (by decide)⟩

end Workflow
